import Mathlib

/-!
# Gabh: export index, export scans, syscall-id extraction and manual mapping

A shallow embedding of `pkg/Gabh/gabh.go`.

Conventions of the embedding:

* Go's fixed-width integers are natural numbers; every place where the Go
  arithmetic can wrap carries an explicit `% 2 ^ w`.
* `uintptr` has the width of the host, which is the parameter `PtrSize`.
* A Go function that can return an error, or stop in a run-time panic
  (index out of range, failed type assertion), returns an `Outcome`.
* A Go byte slice is its elements together with the spare bytes of its
  backing array, so that a slice expression is checked against the capacity
  and an index expression against the length.
* What the code obtains from outside the package (the PE parser of
  `Binject/debug/pe`, `VirtualAlloc`, the assembly trampoline, the caller's
  hash function, `strings.ToLower`) is a parameter of the definition that
  uses it.
-/

namespace Gabh

/-! ## Basic types -/

/-- One byte. -/
abbrev Byte := Fin 256

/-- The result of a Go call: a value with a nil error, a non-nil error, or a
run-time panic. -/
inductive Outcome (α : Type) where
  | ok (v : α)
  | err (msg : String)
  | panicked
  deriving DecidableEq, Repr

/-- The lowercasing that `strings.ToLower` does on a string of ASCII
characters only: the letters `A`..`Z` are moved to `a`..`z`, every other
character is kept. On a string with a non-ASCII character `strings.ToLower`
also maps the letters beyond ASCII, which this function does not; it is
applied to ASCII literals only, and the general theorems take the lowercasing
as the parameter `lower`. -/
def ToLower (s : String) : String :=
  String.mk (s.data.map Char.toLower)

/-- A Go byte slice: `elems` are its elements, `len(b)` of them, and `spare` are
the bytes of the backing array that follow them up to the capacity, so that
`cap(b)` is the sum of the two lengths. -/
structure Slice where
  elems : List Byte
  spare : List Byte
  deriving DecidableEq, Repr

/-- An entry of the export table as `pe.File.Exports` returns it: the exported
name and its relative virtual address (a `uint32`). -/
structure Export where
  Name : String
  VirtualAddress : Nat
  deriving DecidableEq, Repr

/-- A Go `map[string]uint64`: a key is absent or bound to one value. -/
abbrev ExportMap := String → Option Nat

/-- The map `make(map[string]uint64)`. -/
def emptyMap : ExportMap := fun _ => none

/-- The assignment `m[k] = v`: it binds `k`, replacing an earlier binding. -/
def mapSet (m : ExportMap) (k : String) (v : Nat) : ExportMap :=
  fun q => if q = k then some v else m q

/-- Library - describes a loaded library. -/
structure Library where
  Name : String
  BaseAddress : Nat
  Exports : ExportMap

/-- The lookup `v, ok := l.Exports[funcname]` followed by
`l.BaseAddress + uintptr(v)` in `uintptr` arithmetic; a missing key reads as
`v = 0`, `ok = false`. -/
def Library.FindProc (PtrSize : Nat) (l : Library) (funcname : String) : Nat × Bool :=
  match l.Exports funcname with
  | some v => ((l.BaseAddress + v % 2 ^ PtrSize) % 2 ^ PtrSize, true)
  | none => ((l.BaseAddress + 0 % 2 ^ PtrSize) % 2 ^ PtrSize, false)

/-- The lookup of `strings.ToLower(funcname)`, with an error when the key is
absent. -/
def Library.UniversalFindProc (lower : String → String) (PtrSize : Nat) (l : Library)
    (funcname : String) : Outcome Nat :=
  match l.Exports (lower funcname) with
  | none => Outcome.err ("Call did not find export " ++ funcname)
  | some v => Outcome.ok ((l.BaseAddress + v % 2 ^ PtrSize) % 2 ^ PtrSize)

/-- The indexing loop of `LoadLibraryImpl`: for each export in table order,
`Exports[hash(x.Name)] = rva` and then
`Exports[hash(strings.ToLower(x.Name))] = rva`. -/
def indexExports (lower hash : String → String) : List Export → ExportMap → ExportMap
  | [], m => m
  | x :: xs, m =>
    indexExports lower hash xs
      (mapSet (mapSet m (hash x.Name) x.VirtualAddress)
        (hash (lower x.Name)) x.VirtualAddress)

/-- The `Library` that `LoadLibraryImpl` builds at the committed address `dst`
from the export list. -/
def mkLibrary (lower hash : String → String) (dst : Nat) (exports : List Export) : Library :=
  { Name := "", BaseAddress := dst, Exports := indexExports lower hash exports emptyMap }

/-- The export `x` is indexed under the key `k`: `k` is the hash of its name or
of its lowercased name. -/
def hasKey (lower hash : String → String) (x : Export) (k : String) : Prop :=
  hash x.Name = k ∨ hash (lower x.Name) = k

instance (lower hash : String → String) (x : Export) (k : String) :
    Decidable (hasKey lower hash x k) := by
  unfold hasKey; exact inferInstance

/-! ## The parsed image -/

/-- A section of the image: the fields of `pe.SectionHeader` that the package
reads (all `uint32`) and the result of `section.Data()`. -/
structure Section where
  Name : String
  VirtualSize : Nat
  VirtualAddress : Nat
  Size : Nat
  Offset : Nat
  Data : Except String (List Byte)

/-- The dynamic type of `pefile.OptionalHeader`, with the two fields that are
read: `SizeOfImage` and `SizeOfHeaders` (both `uint32`). -/
inductive OptionalHeader where
  | header32 (SizeOfImage SizeOfHeaders : Nat)
  | header64 (SizeOfImage SizeOfHeaders : Nat)
  | absent

/-- A parsed image, `pe.File`, as far as the package reads it. `COFFSymbols` is
the little-endian serialisation that `binary.Write` produces for the symbol
table; `Exports` and `Bytes` are the results of the methods of these names. -/
structure File where
  Machine : Nat
  PointerToSymbolTable : Nat
  OptionalHeader : OptionalHeader
  Sections : List Section
  COFFSymbols : List Byte
  StringTable : List Byte
  Exports : List Export × Option String
  Bytes : Except String Slice

/-- The constant `pe.IMAGE_FILE_MACHINE_AMD64`. -/
def IMAGE_FILE_MACHINE_AMD64 : Nat := 0x8664

def MEM_COMMIT : Nat := 0x001000

def MEM_RESERVE : Nat := 0x002000

/-- The constant `syscall.PAGE_READWRITE`. -/
def PAGE_READWRITE : Nat := 0x04

/-- The constant `syscall.PAGE_EXECUTE_READWRITE`. -/
def PAGE_EXECUTE_READWRITE : Nat := 0x40

/-- A section whose fields are `uint32` values. -/
def Section.wf (s : Section) : Prop :=
  s.VirtualSize < 2 ^ 32 ∧ s.VirtualAddress < 2 ^ 32 ∧ s.Size < 2 ^ 32 ∧ s.Offset < 2 ^ 32

instance (s : Section) : Decidable s.wf := by
  unfold Section.wf; exact inferInstance

/-! ## Relative address to file offset -/

/-- The test of `rvaToOffset` on one section header:
`uint64(rva) > uint64(hdr.VirtualAddress) &&
 uint64(rva) < uint64(hdr.VirtualAddress+hdr.VirtualSize)`,
the sum being a `uint32` sum. -/
def rvaInside (hdr : Section) (rva : Nat) : Prop :=
  rva > hdr.VirtualAddress ∧ rva < (hdr.VirtualAddress + hdr.VirtualSize) % 2 ^ 32

instance (hdr : Section) (rva : Nat) : Decidable (rvaInside hdr rva) := by
  unfold rvaInside; exact inferInstance

/-- The function `rvaToOffset` on `pefile.Sections`: the first section header
passing the test gives `rva - hdr.VirtualAddress + hdr.Offset` in `uint32`
arithmetic, and without such a header the result is `rva`. -/
def rvaToOffset : List Section → Nat → Nat
  | [], rva => rva
  | hdr :: rest, rva =>
    if rvaInside hdr rva then
      ((rva + 2 ^ 32 - hdr.VirtualAddress) % 2 ^ 32 + hdr.Offset) % 2 ^ 32
    else
      rvaToOffset rest rva

/-- The range that the section occupies in the image, lower bound included:
`[VirtualAddress, VirtualAddress + VirtualSize)`. -/
def inRange (s : Section) (rva : Nat) : Prop :=
  s.VirtualAddress ≤ rva ∧ rva < s.VirtualAddress + s.VirtualSize

instance (s : Section) (rva : Nat) : Decidable (inRange s rva) := by
  unfold inRange; exact inferInstance

/-- The section of the scenario: virtual range `[0x1000, 0x3000)`, file offset
`0x400`. -/
def scenarioSection : Section :=
  { Name := ".text", VirtualSize := 0x2000, VirtualAddress := 0x1000, Size := 0x2000,
    Offset := 0x400, Data := Except.ok [] }

/-! ## Syscall identifier from the bytes of the stub -/

/-- The function `binary.LittleEndian.Uint16`:
`uint16(b[0]) | uint16(b[1])<<8`, with a panic on a slice of length below 2
(an index expression is checked against the length). -/
def LittleEndian_Uint16 (b : Slice) : Outcome Nat :=
  match b.elems with
  | b0 :: b1 :: _ => Outcome.ok (b0.val ||| (b1.val <<< 8) % 2 ^ 16)
  | _ => Outcome.panicked

/-- The slice expression `b[lo:hi]`: it panics unless `lo <= hi <= cap(b)`, and
gives the slice of length `hi - lo` that starts at the element `lo` of the
backing array, with the rest of the array as its spare capacity. -/
def slice (b : Slice) (lo hi : Nat) : Outcome Slice :=
  if lo ≤ hi ∧ hi ≤ b.elems.length + b.spare.length then
    Outcome.ok { elems := ((b.elems ++ b.spare).drop lo).take (hi - lo),
                 spare := (b.elems ++ b.spare).drop hi }
  else Outcome.panicked

/-- The function `sysIDFromRawBytes`:
`binary.LittleEndian.Uint16(b[4:8]), nil`. -/
def sysIDFromRawBytes (b : Slice) : Outcome Nat :=
  match slice b 4 8 with
  | Outcome.ok w => LittleEndian_Uint16 w
  | Outcome.err e => Outcome.err e
  | Outcome.panicked => Outcome.panicked

/-- The comparison that the three export scans make between an export and the
requested hash:
`strings.ToLower(hash(exp.Name)) == strings.ToLower(funcname) ||
 strings.ToLower(hash(strings.ToLower(exp.Name))) == strings.ToLower(funcname)`. -/
def hashMatches (lower hash : String → String) (exp : Export) (funcname : String) : Prop :=
  lower (hash exp.Name) = lower funcname ∨ lower (hash (lower exp.Name)) = lower funcname

instance (lower hash : String → String) (exp : Export) (funcname : String) :
    Decidable (hashMatches lower hash exp funcname) := by
  unfold hashMatches; exact inferInstance

/-- The loop of `getSysIDFromDisk` over the exports of the opened file `p`. -/
def getSysIDLoop (lower hash : String → String) (p : File) (funcname : String) :
    List Export → Outcome Nat
  | [] => Outcome.err "Could not find sID"
  | exp :: rest =>
    if hashMatches lower hash exp funcname then
      let offset := rvaToOffset p.Sections exp.VirtualAddress
      match p.Bytes with
      | Except.error e => Outcome.err e
      | Except.ok b =>
        match slice b offset ((offset + 10) % 2 ^ 32) with
        | Outcome.ok buff => sysIDFromRawBytes buff
        | Outcome.err e => Outcome.err e
        | Outcome.panicked => Outcome.panicked
    else
      getSysIDLoop lower hash p funcname rest

/-- The function `getSysIDFromDisk`; `opened` is the result of `pe.Open` on the
path of ntdll. The error of `p.Exports()` is not looked at. -/
def getSysIDFromDisk (lower hash : String → String) (opened : Except String File)
    (funcname : String) : Outcome Nat :=
  match opened with
  | Except.error e => Outcome.err e
  | Except.ok p => getSysIDLoop lower hash p funcname p.Exports.1

/-- The function `NtdllHgate`. -/
def NtdllHgate (lower hash : String → String) (opened : Except String File)
    (funcname : String) : Outcome Nat :=
  getSysIDFromDisk lower hash opened funcname

/-! ## Export scans -/

/-- The loop of `GetFuncUnhook` and of `GetFuncPtr` over the exports: the first
export passing the comparison gives
`uint64(base) + uint64(exp.VirtualAddress), exp.Name, nil`. -/
def scanExports (lower hash : String → String) (base : Nat) (funcnamehash : String) :
    List Export → Outcome (Nat × String)
  | [] => Outcome.err "could not find function!!! "
  | exp :: rest =>
    if hashMatches lower hash exp funcnamehash then
      Outcome.ok ((base + exp.VirtualAddress) % 2 ^ 64, exp.Name)
    else
      scanExports lower hash base funcnamehash rest

/-- The method `GetFuncUnhook` of a module mapped at `pModule`; `parsed` is the
result of `pe.NewFileFromMemory` on the mapped view. -/
def GetFuncUnhook (lower hash : String → String) (pModule : Nat)
    (parsed : Except String File) (funcnamehash : String) : Outcome (Nat × String) :=
  match parsed with
  | Except.error e => Outcome.err e
  | Except.ok p =>
    match p.Exports.2 with
    | some e => Outcome.err e
    | none => scanExports lower hash pModule funcnamehash p.Exports.1

/-- The function `GetFuncPtr`. `first` and `second` are what the two calls of
`GetModuleHandleExW` give (`r1`, `phModule`, and the error of the call), and
`dll` is the result of `dllExports(moduleName)`. -/
def GetFuncPtr (lower hash : String → String) (first second : Nat × Nat × String)
    (dll : Except String File) (funcnamehash : String) : Outcome (Nat × String) :=
  let scan := fun (phModule : Nat) =>
    match dll with
    | Except.error e => Outcome.err e
    | Except.ok pef =>
      match pef.Exports.2 with
      | some e => Outcome.err e
      | none => scanExports lower hash phModule funcnamehash pef.Exports.1
  if first.1 ≠ 1 ∨ first.2.1 = 0 then
    if second.1 ≠ 1 ∨ second.2.1 = 0 then Outcome.err second.2.2
    else scan second.2.1
  else scan first.2.1

/-! ## Syscall dispatch -/

/-- The function `HgSyscall`; the parameter `hgSyscall` is the assembly
trampoline, which gives the `uint32` status of the call. -/
def HgSyscall (hgSyscall : Nat → List Nat → Nat) (callid : Nat) (argh : List Nat) :
    Nat × Option String :=
  let errcode := hgSyscall callid argh
  if errcode ≠ 0 then (errcode, some "non-zero return from syscall")
  else (errcode, none)

/-! ## Manual mapping -/

/-- The memory that starts at the committed address: the byte at each offset
from that address. -/
abbrev Mem := Nat → Byte

/-- The store of one byte at an offset. -/
def Mem.write (mem : Mem) (off : Nat) (v : Byte) : Mem :=
  fun a => if a = off then v else mem a

/-- A byte-copy loop `for index := uint32(0); index < n; index++ { buf[idx] = src[index] }`
into an array `(*[^uint32(0)]byte)` that starts `arrayBase` bytes after the
committed address; `idx index` is the index expression on the left. `count`
is the number of rounds still to run. Reading `src` out of range, or indexing
the array at `2^32 - 1` or beyond, panics (`none`). -/
def copyLoop (arrayBase : Nat) (idx : Nat → Nat) (src : List Byte) :
    Nat → Nat → Mem → Option Mem
  | 0, _, mem => some mem
  | count + 1, index, mem =>
    match src[index]? with
    | none => none
    | some v =>
      if idx index < 2 ^ 32 - 1 then
        copyLoop arrayBase idx src count (index + 1) (mem.write (arrayBase + idx index) v)
      else none

/-- What a call of `CopySections` does: it panics, or it returns an error value
(nil or not) and leaves the memory in some state. -/
inductive CopyResult where
  | panicked
  | returned (mem : Mem) (err : Option String)

/-- The section loop of `CopySections`: sections with `Size == 0` are skipped,
an error of `section.Data()` is returned at once, and the data of a section
goes to `loc + VirtualAddress`. -/
def copySectionLoop : List Section → Mem → CopyResult
  | [], mem => CopyResult.returned mem none
  | sec :: rest, mem =>
    if sec.Size = 0 then copySectionLoop rest mem
    else
      match sec.Data with
      | Except.error e => CopyResult.returned mem (some e)
      | Except.ok d =>
        match copyLoop sec.VirtualAddress (fun i => i) d (d.length % 2 ^ 32) 0 mem with
        | none => CopyResult.panicked
        | some mem1 => copySectionLoop rest mem1

/-- The size of the headers as `CopySections` reads it: the type assertion on
the optional header that the machine field selects; `none` is the panic of a
failed assertion. -/
def headerSize (pefile : File) : Option Nat :=
  if pefile.Machine = IMAGE_FILE_MACHINE_AMD64 then
    match pefile.OptionalHeader with
    | OptionalHeader.header64 _ h => some h
    | _ => none
  else
    match pefile.OptionalHeader with
    | OptionalHeader.header32 _ h => some h
    | _ => none

/-- The function `CopySections`; `mem` is the memory at `loc` before the call.
The three stages are the header copy, the section loop, and the write of the
symbol table followed by the string table at `hbuf[index+PointerToSymbolTable]`
with a `uint32` sum. -/
def CopySections (pefile : File) (image : List Byte) (mem : Mem) : CopyResult :=
  match headerSize pefile with
  | none => CopyResult.panicked
  | some sizeOfHeaders =>
    match copyLoop 0 (fun i => i) image sizeOfHeaders 0 mem with
    | none => CopyResult.panicked
    | some mem1 =>
      match copySectionLoop pefile.Sections mem1 with
      | CopyResult.panicked => CopyResult.panicked
      | CopyResult.returned mem2 (some e) => CopyResult.returned mem2 (some e)
      | CopyResult.returned mem2 none =>
        let b := pefile.COFFSymbols ++ pefile.StringTable
        match copyLoop 0 (fun i => (i + pefile.PointerToSymbolTable) % 2 ^ 32) b
            (b.length % 2 ^ 32) 0 mem2 with
        | none => CopyResult.panicked
        | some mem3 => CopyResult.returned mem3 none

/-- The function `vA`; `VirtualAlloc` is the system call, which gives `r1` and
the text of the error `e1`. With `r1 = 0` the error is
`os.NewSyscallError("VirtualAlloc", e1)`, whose text is the name of the call,
a colon and the text of `e1`. -/
def vA (VirtualAlloc : Nat → Nat → Nat → Nat → Nat × String)
    (addr size allocType protect : Nat) : Outcome Nat :=
  let r := VirtualAlloc addr size allocType protect
  if r.1 = 0 then Outcome.err ("VirtualAlloc: " ++ r.2) else Outcome.ok r.1

/-- What a call of `LoadLibraryImpl` does: its result, the arguments of the
calls of `vA` it made, in order, and the memory at the committed address
(`none` after a panic in the middle of the copy). -/
structure LoadResult where
  result : Outcome Library
  vACalls : List (Nat × Nat × Nat × Nat)
  mem : Option Mem

/-- The function `LoadLibraryImpl` on a host of pointer width `PtrSize`.
`parsed` is the result of `pe.NewFile` on the image, `VirtualAlloc` the system
call behind `vA`, `Relocate` the method `pelib.Relocate`, which rewrites the
image bytes in place (and with them what the parsed file reads), and `mem` the
content of the memory that gets committed. -/
def LoadLibraryImpl (PtrSize : Nat) (lower hash : String → String)
    (VirtualAlloc : Nat → Nat → Nat → Nat → Nat × String)
    (Relocate : File → Nat → List Byte → File × List Byte)
    (parsed : Except String File) (image : List Byte) (mem : Mem) : LoadResult :=
  match parsed with
  | Except.error e => { result := Outcome.err e, vACalls := [], mem := some mem }
  | Except.ok pelib =>
    let pe64 : Bool := decide (pelib.Machine = IMAGE_FILE_MACHINE_AMD64)
    if pe64 = true ∧ PtrSize ≠ 64 then
      { result := Outcome.err "Cannot load a 64bit DLL from a 32bit process",
        vACalls := [], mem := some mem }
    else if pe64 = false ∧ PtrSize ≠ 32 then
      { result := Outcome.err "Cannot load a 32bit DLL from a 64bit process",
        vACalls := [], mem := some mem }
    else
      let sizeOfImage : Option Nat :=
        if pe64 = true then
          match pelib.OptionalHeader with
          | OptionalHeader.header64 s _ => some s
          | _ => none
        else
          match pelib.OptionalHeader with
          | OptionalHeader.header32 s _ => some s
          | _ => none
      match sizeOfImage with
      | none => { result := Outcome.panicked, vACalls := [], mem := some mem }
      | some sizeOfImage =>
        let call1 := (0, sizeOfImage, MEM_RESERVE, PAGE_READWRITE)
        match vA VirtualAlloc 0 sizeOfImage MEM_RESERVE PAGE_READWRITE with
        | Outcome.panicked => { result := Outcome.panicked, vACalls := [call1], mem := some mem }
        | Outcome.err e => { result := Outcome.err e, vACalls := [call1], mem := some mem }
        | Outcome.ok r =>
          let call2 := (r, sizeOfImage, MEM_COMMIT, PAGE_EXECUTE_READWRITE)
          match vA VirtualAlloc r sizeOfImage MEM_COMMIT PAGE_EXECUTE_READWRITE with
          | Outcome.panicked =>
            { result := Outcome.panicked, vACalls := [call1, call2], mem := some mem }
          | Outcome.err e => { result := Outcome.err e, vACalls := [call1, call2], mem := some mem }
          | Outcome.ok dst =>
            let relocated := Relocate pelib (dst % 2 ^ 64) image
            match CopySections relocated.1 relocated.2 mem with
            | CopyResult.panicked =>
              { result := Outcome.panicked, vACalls := [call1, call2], mem := none }
            | CopyResult.returned mem1 _ =>
              match relocated.1.Exports.2 with
              | some e => { result := Outcome.err e, vACalls := [call1, call2], mem := some mem1 }
              | none =>
                { result := Outcome.ok (mkLibrary lower hash dst relocated.1.Exports.1),
                  vACalls := [call1, call2], mem := some mem1 }

/-! ## Sample inputs -/

/-- An opened file whose only export is `Foo` at `0x2000`, inside the section of
the scenario; its bytes are 0x3000 zero bytes, with no spare capacity. -/
def fooFile : File :=
  { Machine := IMAGE_FILE_MACHINE_AMD64, PointerToSymbolTable := 0,
    OptionalHeader := OptionalHeader.header64 0x4000 0x400,
    Sections := [scenarioSection], COFFSymbols := [], StringTable := [],
    Exports := ([{ Name := "Foo", VirtualAddress := 0x2000 }], none),
    Bytes := Except.ok { elems := List.replicate 0x3000 0, spare := [] } }

/-- An opened file of 24 zero bytes with one section, `[0x10, 0x30)` at the file
offset 4, and the single export `Foo` at `0x18`, which is the file offset
`0xc`. -/
def zeroStubFile : File :=
  { Machine := IMAGE_FILE_MACHINE_AMD64, PointerToSymbolTable := 0,
    OptionalHeader := OptionalHeader.header64 0x40 0x4,
    Sections := [{ Name := ".text", VirtualSize := 0x20, VirtualAddress := 0x10,
                   Size := 0x14, Offset := 4, Data := Except.ok (List.replicate 0x14 0) }],
    COFFSymbols := [], StringTable := [],
    Exports := ([{ Name := "Foo", VirtualAddress := 0x18 }], none),
    Bytes := Except.ok { elems := List.replicate 24 0, spare := [] } }

/-- The byte at an offset of the committed memory after a call of
`CopySections` that returned. -/
def CopyResult.byteAt : CopyResult → Nat → Option Byte
  | CopyResult.panicked, _ => none
  | CopyResult.returned mem _, a => some (mem a)

/-- A 32-bit image with 4 bytes of headers, one section of one byte placed at
the relative address 0, and a string table of one byte with
`PointerToSymbolTable = 1`. -/
def overlapFile : File :=
  { Machine := 0x14c, PointerToSymbolTable := 1,
    OptionalHeader := OptionalHeader.header32 0x1000 4,
    Sections := [{ Name := ".ovl", VirtualSize := 1, VirtualAddress := 0, Size := 1,
                   Offset := 0, Data := Except.ok [0xAA] }],
    COFFSymbols := [], StringTable := [0xBB],
    Exports := ([], none), Bytes := Except.ok { elems := [1, 2, 3, 4], spare := [] } }

/-- A 32-bit image with 4 bytes of headers, one section of two bytes at the
relative address 8, and a string table of one byte with
`PointerToSymbolTable = 16`. -/
def tinyFile : File :=
  { Machine := 0x14c, PointerToSymbolTable := 16,
    OptionalHeader := OptionalHeader.header32 0x1000 4,
    Sections := [{ Name := ".text", VirtualSize := 2, VirtualAddress := 8, Size := 2,
                   Offset := 4, Data := Except.ok [7, 7] }],
    COFFSymbols := [], StringTable := [5],
    Exports := ([], none),
    Bytes := Except.ok { elems := [1, 2, 3, 4, 7, 7], spare := [] } }

/-- Memory that holds zero at every offset. -/
def zeroMem : Mem := fun _ => 0

/-- The stores that `CopySections` makes for `tinyFile` and the image
`1 2 3 4 7 7`, in order: four header bytes, two section bytes at 8, one byte of
the string table at 16. -/
def tinyMem : Mem :=
  ((((((zeroMem.write 0 1).write 1 2).write 2 3).write 3 4).write 8 7).write 9 7).write 16 5

/-! ## The export index -/

theorem mapSet_same (m : ExportMap) (k : String) (v : Nat) : mapSet m k v k = some v := by
  simp [mapSet]

theorem mapSet_other (m : ExportMap) (k q : String) (v : Nat) (h : q ≠ k) :
    mapSet m k v q = m q := by
  simp [mapSet, h]

theorem indexExports_append (lower hash : String → String) (xs ys : List Export)
    (m : ExportMap) :
    indexExports lower hash (xs ++ ys) m
      = indexExports lower hash ys (indexExports lower hash xs m) := by
  induction xs generalizing m with
  | nil => rfl
  | cons x xs ih => simp [indexExports, ih]

/-- A binding survives the rest of the loop when every later export with the
same key carries the same address. -/
theorem indexExports_keep (lower hash : String → String) (k : String) (v : Nat)
    (xs : List Export) (m : ExportMap) (hm : m k = some v)
    (hxs : ∀ x ∈ xs, hasKey lower hash x k → x.VirtualAddress = v) :
    indexExports lower hash xs m k = some v := by
  induction xs generalizing m with
  | nil => simpa [indexExports] using hm
  | cons x xs ih =>
    simp only [indexExports]
    apply ih
    · by_cases h2 : k = hash (lower x.Name)
      · have hv := hxs x (List.mem_cons_self _ _) (Or.inr h2.symm)
        simp [mapSet, h2, hv]
      · rw [mapSet_other _ _ _ _ h2]
        by_cases h1 : k = hash x.Name
        · have hv := hxs x (List.mem_cons_self _ _) (Or.inl h1.symm)
          simp [mapSet, h1, hv]
        · rw [mapSet_other _ _ _ _ h1]; exact hm
    · intro y hy hk
      exact hxs y (List.mem_cons_of_mem _ hy) hk

/-- A bound key stays bound through the loop. -/
theorem indexExports_bound (lower hash : String → String) (k : String)
    (xs : List Export) (m : ExportMap) (hm : (m k).isSome = true) :
    (indexExports lower hash xs m k).isSome = true := by
  induction xs generalizing m with
  | nil => simpa [indexExports] using hm
  | cons x xs ih =>
    simp only [indexExports]
    apply ih
    unfold mapSet
    split
    · rfl
    · split
      · rfl
      · exact hm

/-- One round of the loop binds both keys of the export to its address. -/
theorem mapSet_round (lower hash : String → String) (x : Export) (m : ExportMap)
    (k : String) (hk : hasKey lower hash x k) :
    mapSet (mapSet m (hash x.Name) x.VirtualAddress)
      (hash (lower x.Name)) x.VirtualAddress k = some x.VirtualAddress := by
  unfold mapSet
  rcases hk with h | h
  · subst h
    split <;> simp
  · subst h
    simp

/-- The lookup in the index built from `pre ++ e :: post`, under a key of `e`
that no later export rebinds to another address. -/
theorem indexExports_lookup (lower hash : String → String) (pre post : List Export)
    (e : Export) (k : String) (m : ExportMap) (hk : hasKey lower hash e k)
    (hpost : ∀ y ∈ post, hasKey lower hash y k → y.VirtualAddress = e.VirtualAddress) :
    indexExports lower hash (pre ++ e :: post) m k = some e.VirtualAddress := by
  rw [indexExports_append]
  simp only [indexExports]
  exact indexExports_keep lower hash k _ post _ (mapSet_round lower hash e _ k hk) hpost

/-- A key of an export of the list is bound in the index. -/
theorem indexExports_found (lower hash : String → String) (pre post : List Export)
    (e : Export) (k : String) (m : ExportMap) (hk : hasKey lower hash e k) :
    (indexExports lower hash (pre ++ e :: post) m k).isSome = true := by
  rw [indexExports_append]
  simp only [indexExports]
  apply indexExports_bound
  rw [mapSet_round lower hash e _ k hk]
  rfl

theorem FindProc_of_some (PtrSize : Nat) (l : Library) (k : String) (v : Nat)
    (h : l.Exports k = some v) :
    l.FindProc PtrSize k = ((l.BaseAddress + v) % 2 ^ PtrSize, true) := by
  simp [Library.FindProc, h]

theorem FindProc_of_isSome (PtrSize : Nat) (l : Library) (k : String)
    (h : (l.Exports k).isSome = true) : (l.FindProc PtrSize k).2 = true := by
  unfold Library.FindProc
  cases hq : l.Exports k with
  | none => simp [hq] at h
  | some v => rfl

theorem ToLower_Foo : ToLower "Foo" = "foo" := by decide

/-- C1, as stated, fails: with the exports `Foo` at `0x1000` and then `foo` at
`0x2000` under the identity hash, the lookup of the hash of the lowercased name
of the first export gives the address of the second one. -/
theorem FindProc_shadowed_key :
    (mkLibrary ToLower id 0x10000
        [{ Name := "Foo", VirtualAddress := 0x1000 },
         { Name := "foo", VirtualAddress := 0x2000 }]).FindProc 64 (id (ToLower "Foo"))
      = (0x12000, true)
    ∧ (mkLibrary ToLower id 0x10000
        [{ Name := "Foo", VirtualAddress := 0x1000 },
         { Name := "foo", VirtualAddress := 0x2000 }]).FindProc 64 (id (ToLower "Foo"))
      ≠ (0x10000 + 0x1000, true) := by
  decide

/-- C1 (amended): in the library that the indexing loop of `LoadLibraryImpl`
builds from any export list, with any hash and lowercasing function and any
base address, both keys of every export of the list, `H(name)` and
`H(lowercase(name))`, are found by `FindProc`; and the address returned is
`BaseAddress + rva` (a `uintptr` sum) whenever no export later in the list
has this key with a different address. -/
theorem FindProc_indexed (lower hash : String → String) (PtrSize base : Nat)
    (pre post : List Export) (e : Export) (k : String)
    (hk : k = hash e.Name ∨ k = hash (lower e.Name)) :
    ((mkLibrary lower hash base (pre ++ e :: post)).FindProc PtrSize k).2 = true
    ∧ ((∀ y ∈ post, hasKey lower hash y k → y.VirtualAddress = e.VirtualAddress) →
        (mkLibrary lower hash base (pre ++ e :: post)).FindProc PtrSize k
          = ((base + e.VirtualAddress) % 2 ^ PtrSize, true)) := by
  have hk2 : hasKey lower hash e k := by
    rcases hk with h | h
    · exact Or.inl h.symm
    · exact Or.inr h.symm
  constructor
  · apply FindProc_of_isSome
    exact indexExports_found lower hash pre post e k emptyMap hk2
  · intro hpost
    have h := indexExports_lookup lower hash pre post e k emptyMap hk2 hpost
    exact FindProc_of_some PtrSize (mkLibrary lower hash base (pre ++ e :: post)) k _ h

/-- The amended C1 at the exports `Bar`, `Foo`, `Baz` and the key `foo`. -/
theorem FindProc_indexed_witness :
    ((mkLibrary ToLower id 0x10000
        ([{ Name := "Bar", VirtualAddress := 0x3000 }]
          ++ { Name := "Foo", VirtualAddress := 0x2000 }
            :: [{ Name := "Baz", VirtualAddress := 0x4000 }])).FindProc 64 "foo").2 = true
    ∧ (mkLibrary ToLower id 0x10000
        ([{ Name := "Bar", VirtualAddress := 0x3000 }]
          ++ { Name := "Foo", VirtualAddress := 0x2000 }
            :: [{ Name := "Baz", VirtualAddress := 0x4000 }])).FindProc 64 "foo"
      = ((0x10000 + 0x2000) % 2 ^ 64, true) :=
  ⟨(FindProc_indexed ToLower id 64 0x10000 [{ Name := "Bar", VirtualAddress := 0x3000 }]
      [{ Name := "Baz", VirtualAddress := 0x4000 }] { Name := "Foo", VirtualAddress := 0x2000 }
      "foo" (Or.inr (by decide))).1,
   (FindProc_indexed ToLower id 64 0x10000 [{ Name := "Bar", VirtualAddress := 0x3000 }]
      [{ Name := "Baz", VirtualAddress := 0x4000 }] { Name := "Foo", VirtualAddress := 0x2000 }
      "foo" (Or.inr (by decide))).2 (by decide)⟩

/-- C6, as stated, fails: in the library indexed from the single export `Foo`
at `0x2000` with the identity hash, the lookup of `foo` is found. -/
theorem FindProc_foo_found :
    (mkLibrary ToLower id 0x10000
        [{ Name := "Foo", VirtualAddress := 0x2000 }]).FindProc 64 "foo" = (0x12000, true)
    ∧ ¬ ((mkLibrary ToLower id 0x10000
        [{ Name := "Foo", VirtualAddress := 0x2000 }]).FindProc 64 "foo").2 = false := by
  decide

/-- C6 (amended): for the single export `Foo` at `0x2000`, indexed with the
identity hash at any base address, `FindProc` finds `Foo` at `base + 0x2000`
(a `uintptr` sum), and it finds `foo` at the same address, because the loop
also indexes the lowercased name; `UniversalFindProc` of `Foo` gives this
address too, and a key that is neither of the two, such as `FOO`, is not
found. -/
theorem FindProc_Foo_scenario (PtrSize base : Nat) :
    (mkLibrary ToLower id base [{ Name := "Foo", VirtualAddress := 0x2000 }]).FindProc
        PtrSize "Foo" = ((base + 0x2000) % 2 ^ PtrSize, true)
    ∧ (mkLibrary ToLower id base [{ Name := "Foo", VirtualAddress := 0x2000 }]).FindProc
        PtrSize "foo" = ((base + 0x2000) % 2 ^ PtrSize, true)
    ∧ (mkLibrary ToLower id base
        [{ Name := "Foo", VirtualAddress := 0x2000 }]).UniversalFindProc ToLower
        PtrSize "Foo" = Outcome.ok ((base + 0x2000) % 2 ^ PtrSize)
    ∧ ((mkLibrary ToLower id base [{ Name := "Foo", VirtualAddress := 0x2000 }]).FindProc
        PtrSize "FOO").2 = false := by
  have h1 : (mkLibrary ToLower id base
      [{ Name := "Foo", VirtualAddress := 0x2000 }]).Exports "Foo" = some 0x2000 := by
    simp [mkLibrary, indexExports, mapSet, ToLower_Foo]
  have h2 : (mkLibrary ToLower id base
      [{ Name := "Foo", VirtualAddress := 0x2000 }]).Exports "foo" = some 0x2000 := by
    simp [mkLibrary, indexExports, mapSet, ToLower_Foo]
  have h3 : (mkLibrary ToLower id base
      [{ Name := "Foo", VirtualAddress := 0x2000 }]).Exports "FOO" = none := by
    simp [mkLibrary, indexExports, mapSet, ToLower_Foo, emptyMap]
  refine ⟨?_, ?_, ?_, ?_⟩
  · exact FindProc_of_some PtrSize _ "Foo" _ h1
  · exact FindProc_of_some PtrSize _ "foo" _ h2
  · unfold Library.UniversalFindProc
    rw [ToLower_Foo, h2]
    simp [mkLibrary]
  · simp [Library.FindProc, h3]

/-! ## Relative address to file offset -/

/-- A header that passes the test of `rvaToOffset` contains the address in its
range; the `uint32` sum of the test cannot pass when it wraps. -/
theorem rvaInside_inRange (hdr : Section) (rva : Nat) (hwf : hdr.wf)
    (h : rvaInside hdr rva) : inRange hdr rva := by
  unfold rvaInside at h
  unfold Section.wf at hwf
  unfold inRange
  simp only [Nat.reducePow] at h hwf
  omega

theorem rvaToOffset_none (sections : List Section) (rva : Nat)
    (h : ∀ s ∈ sections, ¬ rvaInside s rva) : rvaToOffset sections rva = rva := by
  induction sections with
  | nil => rfl
  | cons hdr rest ih =>
    have h1 : ¬ rvaInside hdr rva := h hdr (List.mem_cons_self _ _)
    simp only [rvaToOffset, h1, if_false]
    exact ih (fun s hs => h s (List.mem_cons_of_mem _ hs))

theorem rvaToOffset_cases (sections : List Section) (rva : Nat) :
    (∃ s ∈ sections, rvaInside s rva ∧
        rvaToOffset sections rva
          = ((rva + 2 ^ 32 - s.VirtualAddress) % 2 ^ 32 + s.Offset) % 2 ^ 32)
      ∨ rvaToOffset sections rva = rva := by
  induction sections with
  | nil => exact Or.inr rfl
  | cons hdr rest ih =>
    by_cases h1 : rvaInside hdr rva
    · left
      exact ⟨hdr, List.mem_cons_self _ _, h1, by simp [rvaToOffset, h1]⟩
    · simp only [rvaToOffset, h1, if_false]
      rcases ih with ⟨s, hs, hin, heq⟩ | h
      · exact Or.inl ⟨s, List.mem_cons_of_mem _ hs, hin, heq⟩
      · exact Or.inr h

/-- Inside the section of the scenario, above its first byte, the translation
is `rva - 0x1000 + 0x400`. -/
theorem rvaToOffset_scenario_interior (rva : Nat) (h1 : 0x1000 < rva) (h2 : rva < 0x3000) :
    rvaToOffset [scenarioSection] rva = rva - 0x1000 + 0x400 := by
  have h : rvaInside scenarioSection rva := by
    unfold rvaInside scenarioSection
    simp only [Nat.reducePow]
    omega
  rw [rvaToOffset, if_pos h]
  simp only [scenarioSection, Nat.reducePow]
  omega

/-- C2 fails on the code at the first byte of a section: for the section of
the scenario, `[0x1000, 0x3000)` at file offset `0x400`, the address `0x1000`
lies in the range and `rvaToOffset` gives `0x1000` back, not
`0x1000 - 0x1000 + 0x400`. -/
theorem rvaToOffset_section_start :
    inRange scenarioSection 0x1000
    ∧ rvaToOffset [scenarioSection] 0x1000 = 0x1000
    ∧ rvaToOffset [scenarioSection] 0x1000
        ≠ 0x1000 - scenarioSection.VirtualAddress + scenarioSection.Offset := by
  decide

/-- C9: for sections with `uint32` fields and an `rva` that lies in no
section's range `[VirtualAddress, VirtualAddress + VirtualSize)`,
`rvaToOffset` gives `rva` back; and every result of `rvaToOffset` is
`rva - s.VirtualAddress + s.Offset` (in `uint32` arithmetic) for a section `s`
of the list whose range contains `rva`, or is `rva` itself. -/
theorem rvaToOffset_fallback (sections : List Section) (rva : Nat)
    (hwf : ∀ s ∈ sections, s.wf) :
    ((∀ s ∈ sections, ¬ inRange s rva) → rvaToOffset sections rva = rva)
    ∧ ((∃ s ∈ sections, inRange s rva ∧
          rvaToOffset sections rva = (rva - s.VirtualAddress + s.Offset) % 2 ^ 32)
        ∨ rvaToOffset sections rva = rva) := by
  constructor
  · intro hno
    apply rvaToOffset_none
    intro s hs hin
    exact hno s hs (rvaInside_inRange s rva (hwf s hs) hin)
  · rcases rvaToOffset_cases sections rva with ⟨s, hs, hin, heq⟩ | h
    · left
      have hr := rvaInside_inRange s rva (hwf s hs) hin
      refine ⟨s, hs, hr, ?_⟩
      rw [heq]
      unfold inRange at hr
      have hw := hwf s hs
      unfold Section.wf at hw
      simp only [Nat.reducePow] at hw ⊢
      have e : (rva + 4294967296 - s.VirtualAddress) % 4294967296 = rva - s.VirtualAddress := by
        omega
      rw [e]
    · exact Or.inr h

/-- C9 at the scenario: the address `0x200` lies before the only section, which
starts at `0x1000`, and is given back unchanged. -/
theorem rvaToOffset_fallback_witness :
    (∀ s ∈ [scenarioSection], s.wf)
    ∧ (∀ s ∈ [scenarioSection], ¬ inRange s 0x200)
    ∧ rvaToOffset [scenarioSection] 0x200 = 0x200 :=
  ⟨by decide, by decide,
    (rvaToOffset_fallback [scenarioSection] 0x200 (by decide)).1 (by decide)⟩

/-! ## Syscall identifier from the bytes of the stub -/

theorem or_shift_eq_add (a b : Nat) (ha : a < 256) (hb : b < 256) :
    a ||| (b <<< 8) % 2 ^ 16 = a + 256 * b := by
  have h1 : b <<< 8 = 2 ^ 8 * b := by rw [Nat.shiftLeft_eq, Nat.mul_comm]
  have h2 : (2 ^ 8 * b) % 2 ^ 16 = 2 ^ 8 * b := by
    apply Nat.mod_eq_of_lt
    simp only [Nat.reducePow]
    omega
  rw [h1, h2, Nat.lor_comm, ← Nat.mul_add_lt_is_or (by simpa using ha) b]
  simp only [Nat.reducePow]
  omega

theorem window_split (b : List Byte) (h : b.length = 10) :
    ∃ b0 b1 b2 b3 b4 b5 rest, b = b0 :: b1 :: b2 :: b3 :: b4 :: b5 :: rest
      ∧ rest.length = 4 := by
  rcases b with _ | ⟨b0, _ | ⟨b1, _ | ⟨b2, _ | ⟨b3, _ | ⟨b4, _ | ⟨b5, rest⟩⟩⟩⟩⟩⟩ <;>
    simp at h
  exact ⟨b0, b1, b2, b3, b4, b5, rest, rfl, by omega⟩

theorem sysIDFromRawBytes_getD (w : Slice) (hw : w.elems.length = 10) :
    sysIDFromRawBytes w
      = Outcome.ok ((w.elems.getD 4 0).val + 256 * (w.elems.getD 5 0).val) := by
  obtain ⟨elems, spare⟩ := w
  obtain ⟨b0, b1, b2, b3, b4, b5, rest, rfl, hrest⟩ := window_split elems hw
  have hs : slice { elems := b0 :: b1 :: b2 :: b3 :: b4 :: b5 :: rest, spare := spare } 4 8
      = Outcome.ok { elems := b4 :: b5 :: (rest ++ spare).take 2,
                     spare := ((b0 :: b1 :: b2 :: b3 :: b4 :: b5 :: rest) ++ spare).drop 8 } := by
    unfold slice
    simp
    omega
  unfold sysIDFromRawBytes
  rw [hs]
  simp only [LittleEndian_Uint16, List.getD_cons_succ, List.getD_cons_zero]
  rw [or_shift_eq_add _ _ b4.isLt b5.isLt]

/-- C8: on every 10-byte window, whatever its spare capacity,
`sysIDFromRawBytes` gives, with a nil error, the little-endian 16-bit value
`b[4] + 256 * b[5]`; two windows that agree on the bytes 4 and 5 give the same
identifier, whatever their other bytes are. -/
theorem sysIDFromRawBytes_window (b : Slice) (h : b.elems.length = 10) :
    sysIDFromRawBytes b = Outcome.ok (b.elems[4].val + 256 * b.elems[5].val)
    ∧ b.elems[4].val + 256 * b.elems[5].val < 2 ^ 16
    ∧ ∀ (w : Slice) (hw : w.elems.length = 10),
        w.elems[4] = b.elems[4] → w.elems[5] = b.elems[5] →
        sysIDFromRawBytes w = sysIDFromRawBytes b := by
  have e4 : ∀ (w : List Byte) (hw : w.length = 10), w.getD 4 0 = w[4] :=
    fun w hw => List.getD_eq_getElem w 0 (by omega)
  have e5 : ∀ (w : List Byte) (hw : w.length = 10), w.getD 5 0 = w[5] :=
    fun w hw => List.getD_eq_getElem w 0 (by omega)
  refine ⟨?_, ?_, ?_⟩
  · rw [sysIDFromRawBytes_getD b h, e4 b.elems h, e5 b.elems h]
  · have h4 := (b.elems[4]).isLt
    have h5 := (b.elems[5]).isLt
    simp only [Nat.reducePow]
    omega
  · intro w hw h4 h5
    rw [sysIDFromRawBytes_getD w hw, sysIDFromRawBytes_getD b h, e4 w.elems hw, e5 w.elems hw,
      e4 b.elems h, e5 b.elems h, h4, h5]

/-- C8 at the window of a clean stub `4c 8b d1 b8 55 00 00 00 0f 05`. -/
theorem sysIDFromRawBytes_window_witness :
    (Slice.mk [0x4c, 0x8b, 0xd1, 0xb8, 0x55, 0x00, 0x00, 0x00, 0x0f, 0x05] []).elems.length = 10
    ∧ sysIDFromRawBytes (Slice.mk [0x4c, 0x8b, 0xd1, 0xb8, 0x55, 0x00, 0x00, 0x00, 0x0f, 0x05] [])
        = Outcome.ok 0x55 :=
  ⟨rfl, (sysIDFromRawBytes_window
    (Slice.mk [0x4c, 0x8b, 0xd1, 0xb8, 0x55, 0x00, 0x00, 0x00, 0x0f, 0x05] []) rfl).1⟩

/-! ## Syscall dispatch -/

/-- C4: `HgSyscall` gives exactly the status that the trampoline `hgSyscall`
gives for the same identifier and arguments, and its error is non-nil if and
only if this status is not zero. -/
theorem HgSyscall_status (hgSyscall : Nat → List Nat → Nat) (callid : Nat) (argh : List Nat) :
    (HgSyscall hgSyscall callid argh).1 = hgSyscall callid argh
    ∧ ((HgSyscall hgSyscall callid argh).2 ≠ none ↔ hgSyscall callid argh ≠ 0)
    ∧ (hgSyscall callid argh = 0 → (HgSyscall hgSyscall callid argh).2 = none) := by
  unfold HgSyscall
  by_cases h : hgSyscall callid argh = 0
  · simp [h]
  · simp [h]

/-- C4 at a trampoline that gives the status 0. -/
theorem HgSyscall_status_witness :
    (fun (_ : Nat) (_ : List Nat) => (0 : Nat)) 0x55 [1, 2] = 0
    ∧ (HgSyscall (fun _ _ => 0) 0x55 [1, 2]).2 = none :=
  ⟨rfl, (HgSyscall_status (fun _ _ => 0) 0x55 [1, 2]).2.2 rfl⟩

/-- The window that `getSysIDFromDisk` cuts at a `uint32` offset has 10 bytes. -/
theorem slice_window_length (b buff : Slice) (offset : Nat) (ho : offset < 2 ^ 32)
    (h : slice b offset ((offset + 10) % 2 ^ 32) = Outcome.ok buff) :
    buff.elems.length = 10 := by
  unfold slice at h
  split at h
  · rename_i hc
    simp only [Outcome.ok.injEq] at h
    subst h
    simp only [List.length_take, List.length_drop, List.length_append]
    simp only [Nat.reducePow] at hc ho ⊢
    omega
  · simp at h

/-! ## Resolution of a syscall identifier from disk -/

theorem getSysIDLoop_miss (lower hash : String → String) (p : File) (funcname : String)
    (exports : List Export) (h : ∀ exp ∈ exports, ¬ hashMatches lower hash exp funcname) :
    getSysIDLoop lower hash p funcname exports = Outcome.err "Could not find sID" := by
  induction exports with
  | nil => rfl
  | cons exp rest ih =>
    have h1 : ¬ hashMatches lower hash exp funcname := h exp (List.mem_cons_self _ _)
    rw [getSysIDLoop, if_neg h1]
    exact ih (fun y hy => h y (List.mem_cons_of_mem _ hy))

theorem getSysIDLoop_ok (lower hash : String → String) (p : File) (funcname : String)
    (exports : List Export) (id : Nat)
    (h : getSysIDLoop lower hash p funcname exports = Outcome.ok id) :
    ∃ exp ∈ exports, hashMatches lower hash exp funcname := by
  induction exports with
  | nil => simp [getSysIDLoop] at h
  | cons exp rest ih =>
    by_cases h1 : hashMatches lower hash exp funcname
    · exact ⟨exp, List.mem_cons_self _ _, h1⟩
    · rw [getSysIDLoop, if_neg h1] at h
      obtain ⟨y, hy, hm⟩ := ih h
      exact ⟨y, List.mem_cons_of_mem _ hy, hm⟩

/-- C3, as stated, fails: with the identity hash, the single export `Foo` and
the request `FOO`, neither the hash of the name nor the hash of the lowercased
name equals the request, and `NtdllHgate` still returns an identifier, here 0,
with a nil error instead of the not-found error. -/
theorem NtdllHgate_case_insensitive :
    (∀ exp ∈ zeroStubFile.Exports.1, id exp.Name ≠ "FOO" ∧ id (ToLower exp.Name) ≠ "FOO")
    ∧ NtdllHgate ToLower id (Except.ok zeroStubFile) "FOO" = Outcome.ok 0
    ∧ NtdllHgate ToLower id (Except.ok zeroStubFile) "FOO"
        ≠ Outcome.err "Could not find sID" := by
  decide

/-- C3 (amended): when the file is opened and no export passes the comparison
that the scan makes with the requested hash, which is an equality after
`strings.ToLower` on both sides, `lower(H(name)) = lower(t)` or
`lower(H(lower(name))) = lower(t)`, `getSysIDFromDisk` and `NtdllHgate` return
the error "Could not find sID"; and whenever they return an identifier with a
nil error, zero included, the file was opened and one of its exports passed
this comparison. -/
theorem getSysIDFromDisk_miss (lower hash : String → String) (funcname : String) :
    (∀ p : File, (∀ exp ∈ p.Exports.1, ¬ hashMatches lower hash exp funcname) →
        getSysIDFromDisk lower hash (Except.ok p) funcname = Outcome.err "Could not find sID"
        ∧ NtdllHgate lower hash (Except.ok p) funcname = Outcome.err "Could not find sID")
    ∧ (∀ (opened : Except String File) (id : Nat),
        NtdllHgate lower hash opened funcname = Outcome.ok id →
        ∃ p, opened = Except.ok p ∧ ∃ exp ∈ p.Exports.1, hashMatches lower hash exp funcname) := by
  constructor
  · intro p h
    have e := getSysIDLoop_miss lower hash p funcname p.Exports.1 h
    exact ⟨e, e⟩
  · intro opened id h
    unfold NtdllHgate getSysIDFromDisk at h
    cases opened with
    | error e => simp at h
    | ok p => exact ⟨p, rfl, getSysIDLoop_ok lower hash p funcname p.Exports.1 id h⟩

/-- The amended C3 at the file whose only export is `Foo`, with the identity
hash and the request `NtClose`. -/
theorem getSysIDFromDisk_miss_witness :
    (∀ exp ∈ fooFile.Exports.1, ¬ hashMatches ToLower id exp "NtClose")
    ∧ getSysIDFromDisk ToLower id (Except.ok fooFile) "NtClose"
        = Outcome.err "Could not find sID" :=
  ⟨by decide, ((getSysIDFromDisk_miss ToLower id "NtClose").1 fooFile (by decide)).1⟩

/-! ## Export scans -/

theorem scanExports_miss (lower hash : String → String) (base : Nat) (t : String)
    (exports : List Export) (h : ∀ exp ∈ exports, ¬ hashMatches lower hash exp t) :
    scanExports lower hash base t exports = Outcome.err "could not find function!!! " := by
  induction exports with
  | nil => rfl
  | cons exp rest ih =>
    have h1 : ¬ hashMatches lower hash exp t := h exp (List.mem_cons_self _ _)
    rw [scanExports, if_neg h1]
    exact ih (fun y hy => h y (List.mem_cons_of_mem _ hy))

theorem scanExports_hit (lower hash : String → String) (base : Nat) (t : String)
    (pre post : List Export) (e : Export)
    (hpre : ∀ y ∈ pre, ¬ hashMatches lower hash y t) (he : hashMatches lower hash e t) :
    scanExports lower hash base t (pre ++ e :: post)
      = Outcome.ok ((base + e.VirtualAddress) % 2 ^ 64, e.Name) := by
  induction pre with
  | nil => simp [scanExports, he]
  | cons y pre ih =>
    have h1 : ¬ hashMatches lower hash y t := hpre y (List.mem_cons_self _ _)
    rw [List.cons_append, scanExports, if_neg h1]
    exact ih (fun z hz => hpre z (List.mem_cons_of_mem _ hz))

theorem scanExports_err (lower hash : String → String) (base : Nat) (t : String)
    (exports : List Export) (msg : String)
    (h : scanExports lower hash base t exports = Outcome.err msg) :
    ∀ exp ∈ exports, ¬ hashMatches lower hash exp t := by
  induction exports with
  | nil => simp
  | cons exp rest ih =>
    by_cases h1 : hashMatches lower hash exp t
    · rw [scanExports, if_pos h1] at h
      simp at h
    · rw [scanExports, if_neg h1] at h
      intro y hy
      rcases List.mem_cons.mp hy with rfl | hy2
      · exact h1
      · exact ih h y hy2

/-- C7, as stated, fails: with the identity hash, the single export `Foo` at
`0x2000` and the request `FOO`, neither `H(name)` nor `H(lowercase(name))`
equals the request, and the scans of `GetFuncUnhook` and `GetFuncPtr` still
return the export instead of the error. -/
theorem GetFuncUnhook_case_insensitive :
    id "Foo" ≠ "FOO" ∧ id (ToLower "Foo") ≠ "FOO"
    ∧ GetFuncUnhook ToLower id 0x7ff000000000 (Except.ok fooFile) "FOO"
        = Outcome.ok (0x7ff000002000, "Foo")
    ∧ GetFuncPtr ToLower id (1, 0x7ff000000000, "") (0, 0, "") (Except.ok fooFile) "FOO"
        = Outcome.ok (0x7ff000002000, "Foo") := by
  decide

/-- C7 (amended): when the exports of the module are read without error, the
scan of `GetFuncUnhook`, and the same scan of `GetFuncPtr` once the module
handle is known, returns `(base + rva, name)` (a 64-bit sum) of the first
export in table order for which `lower(H(name)) = lower(t)` or
`lower(H(lower(name))) = lower(t)`, the comparison being made after
`strings.ToLower` on both hash strings; and it returns the error "could not
find function" exactly when no export passes this comparison. -/
theorem GetFuncUnhook_first_match (lower hash : String → String) (base : Nat) (t : String)
    (p : File) (hp : p.Exports.2 = none) :
    (∀ (pre post : List Export) (e : Export), p.Exports.1 = pre ++ e :: post →
        (∀ y ∈ pre, ¬ hashMatches lower hash y t) → hashMatches lower hash e t →
        GetFuncUnhook lower hash base (Except.ok p) t
          = Outcome.ok ((base + e.VirtualAddress) % 2 ^ 64, e.Name))
    ∧ (GetFuncUnhook lower hash base (Except.ok p) t
          = Outcome.err "could not find function!!! "
        ↔ ∀ exp ∈ p.Exports.1, ¬ hashMatches lower hash exp t)
    ∧ (∀ (second : Nat × Nat × String) (msg : String), base ≠ 0 →
        GetFuncPtr lower hash (1, base, msg) second (Except.ok p) t
          = GetFuncUnhook lower hash base (Except.ok p) t) := by
  have hu : GetFuncUnhook lower hash base (Except.ok p) t
      = scanExports lower hash base t p.Exports.1 := by
    simp [GetFuncUnhook, hp]
  refine ⟨?_, ?_, ?_⟩
  · intro pre post e hsplit hpre he
    rw [hu, hsplit]
    exact scanExports_hit lower hash base t pre post e hpre he
  · rw [hu]
    constructor
    · exact scanExports_err lower hash base t p.Exports.1 _
    · exact scanExports_miss lower hash base t p.Exports.1
  · intro second msg hb
    rw [hu]
    simp [GetFuncPtr, hp, hb]

/-- The amended C7 at the file whose only export is `Foo`, with the identity
hash and the request `foo`. -/
theorem GetFuncUnhook_first_match_witness :
    fooFile.Exports.2 = none
    ∧ fooFile.Exports.1 = [] ++ { Name := "Foo", VirtualAddress := 0x2000 } :: []
    ∧ (∀ y ∈ ([] : List Export), ¬ hashMatches ToLower id y "foo")
    ∧ hashMatches ToLower id { Name := "Foo", VirtualAddress := 0x2000 } "foo"
    ∧ GetFuncUnhook ToLower id 0x7ff000000000 (Except.ok fooFile) "foo"
        = Outcome.ok ((0x7ff000000000 + 0x2000) % 2 ^ 64, "Foo") :=
  ⟨rfl, rfl, by decide, by decide,
    (GetFuncUnhook_first_match ToLower id 0x7ff000000000 "foo" fooFile rfl).1 [] []
      { Name := "Foo", VirtualAddress := 0x2000 } rfl (by decide) (by decide)⟩

/-! ## Manual mapping -/

/-- C5: for every parsed image and every host, a 64-bit image (machine field
`IMAGE_FILE_MACHINE_AMD64`) on a 32-bit host, and an image that is not 64-bit
on a 64-bit host, make `LoadLibraryImpl` return the error of the mismatch and
no library, without any call of `vA` before. -/
theorem LoadLibraryImpl_arch_mismatch (PtrSize : Nat) (lower hash : String → String)
    (VirtualAlloc : Nat → Nat → Nat → Nat → Nat × String)
    (Relocate : File → Nat → List Byte → File × List Byte)
    (pelib : File) (image : List Byte) (mem : Mem) :
    (pelib.Machine = IMAGE_FILE_MACHINE_AMD64 → PtrSize = 32 →
      (LoadLibraryImpl PtrSize lower hash VirtualAlloc Relocate (Except.ok pelib) image
          mem).result = Outcome.err "Cannot load a 64bit DLL from a 32bit process"
      ∧ (LoadLibraryImpl PtrSize lower hash VirtualAlloc Relocate (Except.ok pelib) image
          mem).vACalls = [])
    ∧ (pelib.Machine ≠ IMAGE_FILE_MACHINE_AMD64 → PtrSize = 64 →
      (LoadLibraryImpl PtrSize lower hash VirtualAlloc Relocate (Except.ok pelib) image
          mem).result = Outcome.err "Cannot load a 32bit DLL from a 64bit process"
      ∧ (LoadLibraryImpl PtrSize lower hash VirtualAlloc Relocate (Except.ok pelib) image
          mem).vACalls = []) := by
  constructor
  · intro hm hp
    subst hp
    simp [LoadLibraryImpl, hm]
  · intro hm hp
    subst hp
    simp [LoadLibraryImpl, hm]

/-- C5 at a 64-bit image on a 32-bit host. -/
theorem LoadLibraryImpl_arch_mismatch_witness :
    fooFile.Machine = IMAGE_FILE_MACHINE_AMD64 ∧ (32 : Nat) = 32
    ∧ (LoadLibraryImpl 32 ToLower id (fun _ _ _ _ => (0x10000, "")) (fun f _ img => (f, img))
          (Except.ok fooFile) [] zeroMem).result
        = Outcome.err "Cannot load a 64bit DLL from a 32bit process"
    ∧ (LoadLibraryImpl 32 ToLower id (fun _ _ _ _ => (0x10000, "")) (fun f _ img => (f, img))
          (Except.ok fooFile) [] zeroMem).vACalls = [] :=
  ⟨rfl, rfl,
    ((LoadLibraryImpl_arch_mismatch 32 ToLower id (fun _ _ _ _ => (0x10000, ""))
      (fun f _ img => (f, img)) fooFile [] zeroMem).1 rfl rfl).1,
    ((LoadLibraryImpl_arch_mismatch 32 ToLower id (fun _ _ _ _ => (0x10000, ""))
      (fun f _ img => (f, img)) fooFile [] zeroMem).1 rfl rfl).2⟩

/-- A copy loop leaves alone every offset that none of its rounds writes. -/
theorem copyLoop_frame (arrayBase : Nat) (idx : Nat → Nat) (src : List Byte) (a : Nat) :
    ∀ (count index : Nat) (mem mem1 : Mem),
      copyLoop arrayBase idx src count index mem = some mem1 →
      (∀ j, index ≤ j → j < index + count → arrayBase + idx j ≠ a) →
      mem1 a = mem a := by
  intro count
  induction count with
  | zero =>
    intro index mem mem1 h _
    simp only [copyLoop, Option.some.injEq] at h
    rw [h]
  | succ n ih =>
    intro index mem mem1 h hne
    rw [copyLoop] at h
    split at h
    · simp at h
    · split at h
      · have h2 := ih (index + 1) _ mem1 h (fun j hj1 hj2 => hne j (by omega) (by omega))
        rw [h2]
        have h3 : a ≠ arrayBase + idx index := fun e => hne index (le_refl _) (by omega) e.symm
        simp [Mem.write, h3]
      · simp at h

/-- The header copy puts the bytes of the image at their own offsets. -/
theorem copyLoop_header (src : List Byte) (a : Nat) :
    ∀ (count index : Nat) (mem mem1 : Mem),
      copyLoop 0 (fun i => i) src count index mem = some mem1 →
      index ≤ a → a < index + count → src[a]? = some (mem1 a) := by
  intro count
  induction count with
  | zero =>
    intro index mem mem1 _ h1 h2
    omega
  | succ n ih =>
    intro index mem mem1 h h1 h2
    rw [copyLoop] at h
    split at h
    · simp at h
    · rename_i v hv
      split at h
      · by_cases ha : a = index
        · subst ha
          have h2 := copyLoop_frame 0 (fun i => i) src a n (a + 1) _ mem1 h
            (fun j hj1 _ => by dsimp only; omega)
          rw [h2, hv]
          simp [Mem.write]
        · exact ih (index + 1) _ mem1 h (by omega) (by omega)
      · simp at h

/-- The section loop leaves alone the offsets below `H` when every section it
copies starts at `H` or above. -/
theorem copySectionLoop_frame (H a : Nat) (ha : a < H) :
    ∀ (sections : List Section) (mem mem1 : Mem) (err : Option String),
      copySectionLoop sections mem = CopyResult.returned mem1 err →
      (∀ sec ∈ sections, sec.Size ≠ 0 → H ≤ sec.VirtualAddress) →
      mem1 a = mem a := by
  intro sections
  induction sections with
  | nil =>
    intro mem mem1 err h _
    simp only [copySectionLoop, CopyResult.returned.injEq] at h
    rw [h.1]
  | cons sec rest ih =>
    intro mem mem1 err h hsec
    have hrest : ∀ s ∈ rest, s.Size ≠ 0 → H ≤ s.VirtualAddress :=
      fun s hs => hsec s (List.mem_cons_of_mem _ hs)
    rw [copySectionLoop] at h
    by_cases hz : sec.Size = 0
    · rw [if_pos hz] at h
      exact ih mem mem1 err h hrest
    · rw [if_neg hz] at h
      have hva := hsec sec (List.mem_cons_self _ _) hz
      split at h
      · simp only [CopyResult.returned.injEq] at h
        rw [h.1]
      · rename_i d hd
        split at h
        · simp at h
        · rename_i mem2 hc
          rw [ih mem2 mem1 err h hrest]
          exact copyLoop_frame sec.VirtualAddress (fun i => i) d a _ 0 mem mem2 hc
            (fun j _ _ => by dsimp only; omega)

/-- C10, as stated, fails: in an image with 4 bytes of headers, a section
placed at the relative address 0 and a string table written at
`PointerToSymbolTable = 1` replace the header bytes 0 and 1 of the copy. -/
theorem CopySections_header_overwritten :
    headerSize overlapFile = some 4
    ∧ (CopySections overlapFile [1, 2, 3, 4] zeroMem).byteAt 0 = some 0xAA
    ∧ ([1, 2, 3, 4] : List Byte)[0]? = some 1
    ∧ (CopySections overlapFile [1, 2, 3, 4] zeroMem).byteAt 1 = some 0xBB
    ∧ ([1, 2, 3, 4] : List Byte)[1]? = some 2 := by
  decide

/-- C10 (amended): after `CopySections` returns, every byte at the offsets
`[0, sizeOfHeaders)` of the destination equals the byte at the same offset of
the input image, provided every section that is copied (`Size` not 0) has
`VirtualAddress` at or above `sizeOfHeaders` and no byte of the symbol and
string tables is written below `sizeOfHeaders`, that is
`(index + PointerToSymbolTable) mod 2^32` is at or above `sizeOfHeaders` for
every index of the serialised tables. -/
theorem CopySections_header_fidelity (pefile : File) (image : List Byte) (mem mem1 : Mem)
    (err : Option String) (sizeOfHeaders : Nat)
    (hsz : headerSize pefile = some sizeOfHeaders)
    (hret : CopySections pefile image mem = CopyResult.returned mem1 err)
    (hsec : ∀ sec ∈ pefile.Sections, sec.Size ≠ 0 → sizeOfHeaders ≤ sec.VirtualAddress)
    (hsym : ∀ i, i < (pefile.COFFSymbols ++ pefile.StringTable).length % 2 ^ 32 →
      sizeOfHeaders ≤ (i + pefile.PointerToSymbolTable) % 2 ^ 32) :
    ∀ a, a < sizeOfHeaders → image[a]? = some (mem1 a) := by
  intro a ha
  unfold CopySections at hret
  rw [hsz] at hret
  dsimp only at hret
  split at hret
  · simp at hret
  · rename_i m1 h1
    have hhead := copyLoop_header image a sizeOfHeaders 0 mem m1 h1 (Nat.zero_le _) (by omega)
    split at hret
    · simp at hret
    · rename_i m2 e h2
      have hframe := copySectionLoop_frame sizeOfHeaders a ha pefile.Sections m1 m2 _ h2 hsec
      simp only [CopyResult.returned.injEq] at hret
      rw [← hret.1, hframe]
      exact hhead
    · rename_i m2 h2
      have hframe := copySectionLoop_frame sizeOfHeaders a ha pefile.Sections m1 m2 _ h2 hsec
      split at hret
      · simp at hret
      · rename_i m3 h3
        simp only [CopyResult.returned.injEq] at hret
        have hf3 := copyLoop_frame 0 (fun i => (i + pefile.PointerToSymbolTable) % 2 ^ 32)
          (pefile.COFFSymbols ++ pefile.StringTable) a _ 0 m2 m3 h3
          (fun j _ hj => by
            have := hsym j (by omega)
            dsimp only
            omega)
        rw [← hret.1, hf3, hframe]
        exact hhead

/-- The amended C10 at an image with 4 bytes of headers, a section at 8 and
the string table at 16. -/
theorem CopySections_header_fidelity_witness :
    headerSize tinyFile = some 4
    ∧ CopySections tinyFile [1, 2, 3, 4, 7, 7] zeroMem = CopyResult.returned tinyMem none
    ∧ (∀ sec ∈ tinyFile.Sections, sec.Size ≠ 0 → 4 ≤ sec.VirtualAddress)
    ∧ (∀ i, i < (tinyFile.COFFSymbols ++ tinyFile.StringTable).length % 2 ^ 32 →
        4 ≤ (i + tinyFile.PointerToSymbolTable) % 2 ^ 32)
    ∧ ∀ a, a < 4 → ([1, 2, 3, 4, 7, 7] : List Byte)[a]? = some (tinyMem a) :=
  ⟨rfl, rfl, by decide, by decide,
    CopySections_header_fidelity tinyFile [1, 2, 3, 4, 7, 7] zeroMem tinyMem none 4 rfl rfl
      (by decide) (by decide)⟩

end Gabh
